import Mathlib

/-!
# Verification of the force-OCR extraction-and-chunking pipeline

Shallow embedding of `src/app.py` (a Tesseract force-OCR batch converter):
the preprocessing image transform (`_preprocess_for_ocr`), the OCR page
assembly (`extract_text_pages_force_ocr`, `_ocr_page_image`), the chunking
loop and join (`_run_worker`, `join_pages`), and the two output writers
(`save_text_as_txt`, `save_text_as_pdf`).

Python string primitives used by the source (`str.strip`, `str.split`,
`str.replace`, `xml.sax.saxutils.escape`, `os.path.splitext`,
`"%03d" % n` formatting) are modelled as structural recursions on `List Char`
with Python's documented semantics, so all definitions are kernel-evaluable.

External collaborators (PyMuPDF rendering, the Tesseract engine, PIL,
tkinter, the filesystem) are modelled at their contract level: per-page
OCR results become an oracle `Nat → Except PyExc String`, PIL image
operations are translated pixel-wise on an explicit pixel-list image type,
and "writing a file" becomes returning the content that would be written.
-/

/- ========== Python string primitives ========== -/

/-- Python `str.strip()` whitespace test (ASCII part: space, tab, newline,
carriage return, vertical tab, form feed). -/
def isPySpace (c : Char) : Bool :=
  c = ' ' || c = '\t' || c = '\n' || c = '\r' || c = '\x0b' || c = '\x0c'

/-- Python `s.strip()`: remove leading and trailing whitespace. -/
def pyStrip (s : String) : String :=
  String.mk (((s.toList.dropWhile isPySpace).reverse.dropWhile isPySpace).reverse)

/-- Python `s.split("\n\n")` on the character list: greedy left-to-right,
non-overlapping; an empty input yields one empty field. -/
def splitBlank : List Char → List (List Char)
  | '\n' :: '\n' :: cs => [] :: splitBlank cs
  | c :: cs =>
    match splitBlank cs with
    | [] => [[c]]
    | h :: t => (c :: h) :: t
  | [] => [[]]

/-- Python `s.replace("\r\n", "\n")`: left-to-right, non-overlapping. -/
def normNewlines : List Char → List Char
  | '\r' :: '\n' :: cs => '\n' :: normNewlines cs
  | c :: cs => c :: normNewlines cs
  | [] => []

/-- One character of `xml.sax.saxutils.escape`: `&`, `<`, `>` become
entities.  (The Python function applies three sequential `str.replace`
calls, `&` first; since the replacement texts contain no `<` or `>` and the
later replaces do not touch `&`, this is the same as the per-character map.) -/
def xmlEscapeChar (c : Char) : List Char :=
  if c = '&' then ['&', 'a', 'm', 'p', ';']
  else if c = '<' then ['&', 'l', 't', ';']
  else if c = '>' then ['&', 'g', 't', ';']
  else [c]

/-- `xml.sax.saxutils.escape` with default entity map. -/
def xml_escape (s : String) : String :=
  String.mk (s.toList.flatMap xmlEscapeChar)

/-- Python `f"{n:03d}"` for a nonnegative `n`: zero-pad to width 3. -/
def pad3 (n : Nat) : String :=
  let s := toString n
  if s.length < 3 then String.mk (List.replicate (3 - s.length) '0') ++ s else s

/-- Index of the last `'.'` in a character list, if any. -/
def lastDotIdx (cs : List Char) : Option Nat :=
  match cs.reverse.findIdx? (fun c => c = '.') with
  | none => none
  | some j => some (cs.length - 1 - j)

/-- `os.path.splitext(name)[0]` for a plain basename (no directory
separators): split at the last dot provided some earlier character of the
name is not a dot (so `".bashrc"` keeps its dot). -/
def splitextBase (name : String) : String :=
  let cs := name.toList
  match lastDotIdx cs with
  | none => name
  | some d => if (cs.take d).any (fun c => c ≠ '.') then String.mk (cs.take d) else name

/- ========== Error model ========== -/

/-- Exceptions that can cross the pipeline's function boundaries.
The first three model the external collaborators' failures (PyMuPDF
`fitz.open` / page rasterization, the Tesseract invocation).
`src/app.py` defines no exception class of its own.

The `documentExtractionError` constructor is modelled from the spec: the
spec's error taxonomy names a `DocumentExtractionError` wrapper carrying the
offending page index, but no such class exists anywhere in the source; the
constructor exists here only so that statements about it can be made. -/
inductive PyExc where
  | fitzOpenError (msg : String)
  | renderError (msg : String)
  | ocrEngineError (msg : String)
  | documentExtractionError (page : Nat) (msg : String)
deriving DecidableEq

/-- The page index carried by an exception, when it carries one. -/
def PyExc.pageOf : PyExc → Option Nat
  | .documentExtractionError p _ => some p
  | _ => none

/-- Output format radio button: `"txt"` or `"pdf"`. -/
inductive Fmt where
  | txt
  | pdf
deriving DecidableEq

/- ========== Per-page OCR and document extraction ========== -/

/-- `_ocr_page_image` (src/app.py:39-43) applied to the engine's raw
output: `(text or "").strip()`. The `pytesseract.image_to_string` call
itself is the external collaborator. -/
def _ocr_page_image (raw : String) : String :=
  pyStrip raw

/-- The string appended per page (src/app.py:96):
`f"[PAGE {pno}]\n{txt}"` where `txt` is the stripped OCR output. -/
def pageEntry (pno : Nat) (raw : String) : String :=
  "[PAGE " ++ toString pno ++ "]\n" ++ _ocr_page_image raw

/-- The `for i in range(total)` loop of `extract_text_pages_force_ocr`
(src/app.py:89-96), starting at page index `start` with `n` pages left.
`oracle i` models render→preprocess→OCR for 0-based page `i`: it returns
the raw recognized text, or the render/OCR exception.  The first failing
page aborts the loop and its exception propagates unchanged. -/
def extractLoop (oracle : Nat → Except PyExc String) : Nat → Nat → Except PyExc (List String)
  | _, 0 => .ok []
  | i, n + 1 =>
    match oracle i with
    | .error e => .error e
    | .ok raw =>
      match extractLoop oracle (i + 1) n with
      | .error e => .error e
      | .ok rest => .ok (pageEntry (i + 1) raw :: rest)

/-- `extract_text_pages_force_ocr` (src/app.py:81-97): returns one string
per page, in ascending page order, or the first page failure's exception. -/
def extract_text_pages_force_ocr (pageCount : Nat) (oracle : Nat → Except PyExc String) :
    Except PyExc (List String) :=
  extractLoop oracle 0 pageCount

/- ========== Join ========== -/

/-- `join_pages` (src/app.py:99-104):
`"\n\n".join(pages_text[start_idx:end_idx]).strip()` —
`start_idx` inclusive, `end_idx` exclusive, Python slicing style. -/
def join_pages (pages_text : List String) (start_idx end_idx : Nat) : String :=
  pyStrip (String.intercalate "\n\n" ((pages_text.drop start_idx).take (end_idx - start_idx)))

/- ========== Output writers ========== -/

/-- `save_text_as_txt` (src/app.py:76-78), modelled as the content written
to the destination file: the text itself if truthy (non-empty), otherwise
the literal placeholder. -/
def save_text_as_txt (text : String) : String :=
  if text = "" then "(No text extracted.)" else text

/-- Reading a written plain-text artifact back: UTF-8 encode on write and
decode on read round-trip to the same string. -/
def readTextArtifact (content : String) : String :=
  content

/-- A ReportLab flowable built by `save_text_as_pdf`: an `XPreformatted`
paragraph block with its escaped content, or a `Spacer(1, 6)`. -/
inductive Flowable where
  | xpre (content : String)
  | spacer
deriving DecidableEq

/-- Whether a flowable is a paragraph (`XPreformatted`) block. -/
def Flowable.isPara : Flowable → Bool
  | .xpre _ => true
  | .spacer => false

/-- The flowable list built by `save_text_as_pdf` (src/app.py:52-74):
`safe_text = xml_escape((text or "").replace("\r\n", "\n"))`;
`chunks = [c.strip() for c in safe_text.split("\n\n")] or ["(No text extracted.)"]`;
optional title block, then one `XPreformatted` + `Spacer` per non-empty
chunk.  (The `or [...]` fallback is kept exactly as written; `str.split`
never returns an empty list, so the comprehension is never falsy.) -/
def save_text_as_pdf_flow (text : String) (title : Option String) : List Flowable :=
  let safe_text := xml_escape (String.mk (normNewlines text.toList))
  let cs := (splitBlank safe_text.toList).map (fun l => pyStrip (String.mk l))
  let chunks := if cs = [] then ["(No text extracted.)"] else cs
  let titleFlow : List Flowable :=
    match title with
    | some t => [Flowable.xpre (xml_escape t), Flowable.spacer]
    | none => []
  titleFlow ++ chunks.flatMap (fun c => if c ≠ "" then [Flowable.xpre c, Flowable.spacer] else [])

/- ========== Chunk partitioning (the while loop of _run_worker) ========== -/

/-- The `while start_page <= total_pages` loop of `_run_worker`
(src/app.py:259-278), as the sequence of `(start_page, end_page)` ranges it
iterates: `end_page = min(start_page + pages_per_chunk - 1, total_pages)`,
then `start_page = end_page + 1`.  `fuel` bounds the iteration count; with
`k > 0` every iteration advances `start` by at least one, so
`fuel = total + 1 - start` is always enough (the callers only reach the
loop with `pages_per_chunk > 0`). -/
def chunkLoopF : Nat → Nat → Nat → Nat → List (Nat × Nat)
  | 0, _, _, _ => []
  | fuel + 1, total, k, start =>
    if start ≤ total then
      (start, min (start + k - 1) total) :: chunkLoopF fuel total k (min (start + k - 1) total + 1)
    else []

/-- The full range sequence produced by the chunking loop started at page 1. -/
def chunkRanges (total k : Nat) : List (Nat × Nat) :=
  chunkLoopF (total + 1) total k 1

/-- The partition chosen by `_run_worker` (src/app.py:257-281): the chunk
loop's ranges when `do_chunk and pages_per_chunk > 0`, otherwise the single
full range `[1, total]` (the single-file branch joins pages `0..total`). -/
def partitionRanges (do_chunk : Bool) (total k : Nat) : List (Nat × Nat) :=
  if do_chunk ∧ 0 < k then chunkRanges total k else [(1, total)]

/- ========== The worker: artifacts and batch ========== -/

/-- An output artifact: destination filename (output directory prefix
omitted) plus the content written there — the text file's content for the
txt writer, the built flowable list for the pdf writer. -/
inductive Artifact where
  | txtFile (path : String) (content : String)
  | pdfFile (path : String) (flow : List Flowable)
deriving DecidableEq

/-- The filename an artifact is written to. -/
def Artifact.path : Artifact → String
  | .txtFile p _ => p
  | .pdfFile p _ => p

/-- The artifacts written by `_run_worker` for one successfully extracted
document (src/app.py:254-290): `base = os.path.splitext(name)[0]`; when
chunking, one artifact per loop range named
`f"{base}_p{start:03d}-{end:03d}.{ext}"` with text
`join_pages(pages_text, start - 1, end)` (pdf title
`f"{name} (pages {start}-{end})"`); otherwise a single artifact —
`f"{base}.txt"` or `f"{base}_text.pdf"` — with text
`join_pages(pages_text, 0, total_pages)` (pdf title `name`). -/
def workerArtifacts (fmt : Fmt) (do_chunk : Bool) (pages_per_chunk : Nat)
    (name : String) (pages_text : List String) : List Artifact :=
  let total_pages := pages_text.length
  let base := splitextBase name
  if do_chunk ∧ 0 < pages_per_chunk then
    (chunkRanges total_pages pages_per_chunk).map (fun r =>
      let chunk_text := join_pages pages_text (r.1 - 1) r.2
      match fmt with
      | Fmt.pdf =>
        Artifact.pdfFile (base ++ "_p" ++ pad3 r.1 ++ "-" ++ pad3 r.2 ++ ".pdf")
          (save_text_as_pdf_flow chunk_text
            (some (name ++ " (pages " ++ toString r.1 ++ "-" ++ toString r.2 ++ ")")))
      | Fmt.txt =>
        Artifact.txtFile (base ++ "_p" ++ pad3 r.1 ++ "-" ++ pad3 r.2 ++ ".txt")
          (save_text_as_txt chunk_text))
  else
    let full_text := join_pages pages_text 0 total_pages
    match fmt with
    | Fmt.pdf => [Artifact.pdfFile (base ++ "_text.pdf") (save_text_as_pdf_flow full_text (some name))]
    | Fmt.txt => [Artifact.txtFile (base ++ ".txt") (save_text_as_txt full_text)]

/-- One input file of the batch: its basename and the result of
`fitz.open` — either an open-failure exception or the page count together
with the per-page render→preprocess→OCR oracle. -/
structure InputFile where
  name : String
  doc : Except PyExc (Nat × (Nat → Except PyExc String))

/-- The per-file body of `_run_worker`'s `for` loop (src/app.py:249-295):
any exception from opening, extraction or writing is caught by the
`except Exception` handler, logged, and yields no artifacts for that file. -/
def processFile (fmt : Fmt) (do_chunk : Bool) (pages_per_chunk : Nat) (f : InputFile) :
    List Artifact :=
  match f.doc with
  | .error _ => []
  | .ok (pageCount, oracle) =>
    match extract_text_pages_force_ocr pageCount oracle with
    | .error _ => []
    | .ok pages_text => workerArtifacts fmt do_chunk pages_per_chunk f.name pages_text

/-- The batch loop of `_run_worker` (src/app.py:249-295): files are
processed in order; a failing file contributes nothing and the loop
continues with the next file. -/
def _run_worker (fmt : Fmt) (do_chunk : Bool) (pages_per_chunk : Nat)
    (files : List InputFile) : List Artifact :=
  files.flatMap (processFile fmt do_chunk pages_per_chunk)

/- ========== PIL image model and _preprocess_for_ocr ========== -/

/-- An RGB raster image: dimensions plus a row-major pixel list of
`(r, g, b)` byte triples. -/
structure RGBImage where
  width : Nat
  height : Nat
  px : List (Nat × Nat × Nat)
deriving DecidableEq

/-- A grayscale (mode `L`) raster image: dimensions plus a row-major pixel
list of luminance bytes. -/
structure GrayImage where
  width : Nat
  height : Nat
  px : List Nat
deriving DecidableEq

/-- Pixel access at `(x, y)`, row-major; out-of-range reads give 0. -/
def GrayImage.get (img : GrayImage) (x y : Nat) : Nat :=
  img.px.getD (y * img.width + x) 0

/-- `img.resize((nw, nh), Image.LANCZOS)`, modelled at the dimension level:
the output has exactly the requested dimensions; the resampled pixel values
are modelled by coordinate sampling, since no claim depends on the values
produced by the Lanczos kernel (the resize happens before binarization). -/
def resizeNearest (img : RGBImage) (nw nh : Nat) : RGBImage :=
  { width := nw, height := nh,
    px := (List.range (nw * nh)).map (fun i =>
      let x := i % nw
      let y := i / nw
      img.px.getD ((y * img.height / nh) * img.width + x * img.width / nw) (0, 0, 0)) }

/-- PIL's RGB→L conversion: `L = (R*19595 + G*38470 + B*7471 + 2^15) >> 16`
(the ITU-R 601-2 luma transform as implemented). -/
def l_from_rgb (r g b : Nat) : Nat :=
  (r * 19595 + g * 38470 + b * 7471 + 32768) / 65536

/-- `ImageOps.grayscale(img)`. -/
def grayscale (img : RGBImage) : GrayImage :=
  { width := img.width, height := img.height,
    px := img.px.map (fun p => l_from_rgb p.1 p.2.1 p.2.2) }

/-- `ImageOps.autocontrast(g)` with cutoff 0: stretch the occurring value
range `[lo, hi]` linearly onto `[0, 255]`; identity when the histogram is
degenerate (`hi ≤ lo`). -/
def autocontrast (img : GrayImage) : GrayImage :=
  let lo := img.px.foldr min 255
  let hi := img.px.foldr max 0
  if hi ≤ lo then img
  else { img with px := img.px.map (fun v => if v ≤ lo then 0 else min 255 ((v - lo) * 255 / (hi - lo))) }

/-- `g.point(lambda x: 255 if x > 180 else 0)`: fixed global threshold. -/
def pointThreshold (img : GrayImage) : GrayImage :=
  { img with px := img.px.map (fun v => if 180 < v then 255 else 0) }

/-- Insert into a sorted list (for the rank computation of the median
filter). -/
def insertSorted (a : Nat) : List Nat → List Nat
  | [] => [a]
  | b :: l => if a ≤ b then a :: b :: l else b :: insertSorted a l

/-- Insertion sort of a pixel-value list. -/
def sortNat (l : List Nat) : List Nat :=
  l.foldr insertSorted []

/-- The 3×3 neighborhood of `(x, y)` with edge replication (PIL's rank
filters expand the image by replicating edge pixels; clamping the
coordinates is the same thing). -/
def neighborhood (img : GrayImage) (x y : Nat) : List Nat :=
  (([y - 1, y, min (y + 1) (img.height - 1)]).map (fun yy =>
    ([x - 1, x, min (x + 1) (img.width - 1)]).map (fun xx => img.get xx yy))).flatten

/-- `bw.filter(ImageFilter.MedianFilter(3))`: each pixel becomes the rank-4
(0-based) element of its sorted 3×3 neighborhood. -/
def medianFilter3 (img : GrayImage) : GrayImage :=
  { img with px := (List.range img.px.length).map (fun i =>
      (sortNat (neighborhood img (i % img.width) (i / img.width))).getD 4 0) }

/-- One pixel of `ImageFilter.SHARPEN`: the 3×3 kernel with center weight
32, neighbor weights −2, scale 16, offset 0, result clamped to `[0, 255]`;
border pixels (where the kernel does not fit) are copied unchanged. -/
def sharpenAt (img : GrayImage) (x y : Nat) : Nat :=
  if x = 0 ∨ y = 0 ∨ img.width ≤ x + 1 ∨ img.height ≤ y + 1 then img.get x y
  else
    let c := img.get x y
    let s := img.get (x - 1) (y - 1) + img.get x (y - 1) + img.get (x + 1) (y - 1)
      + img.get (x - 1) y + img.get (x + 1) y
      + img.get (x - 1) (y + 1) + img.get x (y + 1) + img.get (x + 1) (y + 1)
    let v : Int := 32 * (c : Int) - 2 * (s : Int)
    if v ≤ 0 then 0 else if (4080 : Int) ≤ v then 255 else v.toNat / 16

/-- `bw.filter(ImageFilter.SHARPEN)`. -/
def sharpenFilter (img : GrayImage) : GrayImage :=
  { img with px := (List.range img.px.length).map (fun i =>
      sharpenAt img (i % img.width) (i / img.width)) }

/-- `_preprocess_for_ocr` (src/app.py:22-37) with the default
`upscale=1.5`: conditional upscale (`int(w * 1.5) = 3*w/2` exactly, since
`w * 1.5` is an exact float), grayscale, autocontrast, global threshold at
180, median filter, sharpen. -/
def _preprocess_for_ocr (img : RGBImage) : GrayImage :=
  let img1 := if min img.width img.height < 1400
    then resizeNearest img (3 * img.width / 2) (3 * img.height / 2)
    else img
  let g := autocontrast (grayscale img1)
  let bw := pointThreshold g
  sharpenFilter (medianFilter3 bw)

/-- An image is bilevel when every stored pixel is full black or full
white. -/
def Bilevel (img : GrayImage) : Prop :=
  ∀ v ∈ img.px, v = 0 ∨ v = 255

/- ========== Spec-side definitions and concrete witnesses ========== -/

/-- The spec's description of `join` (for comparison with `join_pages`):
the entries concatenated with exactly one blank line between consecutive
entries. -/
def blankLineConcat : List String → String
  | [] => ""
  | [t] => t
  | t :: ts => t ++ "\n\n" ++ blankLineConcat ts

/-- A concrete 10-page document whose OCR oracle fails on page 7
(0-based index 6) and succeeds on every other page. -/
def c2oracle : Nat → Except PyExc String :=
  fun i => if i = 6 then .error (PyExc.ocrEngineError "engine crashed") else .ok "ok"

/-- Concrete per-page texts of a 2-page document (page 1 recognizes
`"  Hello "`, page 2 recognizes nothing). -/
def c6texts : Nat → String :=
  fun i => ["  Hello ", ""].getD i ""

/-- The always-succeeding oracle returning `c6texts`. -/
def c6oracle : Nat → Except PyExc String :=
  fun i => .ok (c6texts i)

/- ========== Theorems ========== -/

/- ===== String.intercalate agrees with the spec's blank-line concatenation ===== -/

theorem intercalate_go_append (s acc x : String) (as : List String) :
    String.intercalate.go (acc ++ x) s as = acc ++ String.intercalate.go x s as := by
  induction as generalizing x with
  | nil => rfl
  | cons a as ih =>
    show String.intercalate.go (acc ++ x ++ s ++ a) s as
      = acc ++ String.intercalate.go (x ++ s ++ a) s as
    rw [String.append_assoc acc x s, String.append_assoc acc (x ++ s) a, ih]

theorem intercalate_cons_cons (s t t2 : String) (ts : List String) :
    String.intercalate s (t :: t2 :: ts) = t ++ s ++ String.intercalate s (t2 :: ts) := by
  show String.intercalate.go (t ++ s ++ t2) s ts = t ++ s ++ String.intercalate.go t2 s ts
  exact intercalate_go_append s (t ++ s) t2 ts

theorem intercalate_eq_blankLineConcat (l : List String) :
    String.intercalate "\n\n" l = blankLineConcat l := by
  match l with
  | [] => rfl
  | [t] => rfl
  | t :: t2 :: ts =>
    rw [intercalate_cons_cons, intercalate_eq_blankLineConcat (t2 :: ts)]
    rfl

/-- C5: for every list of page texts and every 1-based inclusive range
`[a, b]` within the list, the joined chunk text (as `_run_worker` invokes
`join_pages`, with arguments `a - 1` and `b`) equals the page texts from
index `a` through `b` concatenated with exactly one blank line between
consecutive entries, with leading and trailing whitespace stripped from
the result. -/
theorem join_pages_one_based_spec (pages : List String) (a b : Nat)
    (h1 : 1 ≤ a) (h2 : a ≤ b) (h3 : b ≤ pages.length) :
    join_pages pages (a - 1) b = pyStrip (blankLineConcat ((pages.take b).drop (a - 1))) := by
  unfold join_pages
  rw [List.drop_take, intercalate_eq_blankLineConcat]

theorem join_pages_one_based_spec_witness :
    1 ≤ 1 ∧ join_pages ["x", " y ", "z"] 0 2
      = pyStrip (blankLineConcat (((["x", " y ", "z"] : List String).take 2).drop 0)) :=
  ⟨by decide, join_pages_one_based_spec ["x", " y ", "z"] 1 2 (by decide) (by decide) (by decide)⟩

/- ===== C3: PDF writer on entirely empty text ===== -/

/-- C3: the claim says the paginated-document writer emits exactly one
placeholder paragraph block when the text is entirely empty.  The code does
not: `"".split("\n\n")` is `[""]`, a truthy list, so the
`or ["(No text extracted.)"]` fallback is dead and the single empty chunk
is skipped by `if c:` — the built flowable list is empty. -/
theorem pdf_writer_empty_text_builds_no_blocks :
    save_text_as_pdf_flow "" none = [] := by decide

/- ===== C8: plain-text writer ===== -/

/-- C8: the plain-text writer writes the chunk text verbatim when it is
non-empty and exactly the literal placeholder when it is empty, so reading
a written artifact back returns the joined chunk text, or the placeholder
if that text was empty. -/
theorem txt_writer_verbatim_or_placeholder :
    (∀ t : String, t ≠ "" → save_text_as_txt t = t)
    ∧ save_text_as_txt "" = "(No text extracted.)"
    ∧ ∀ (pages : List String) (a b : Nat),
        readTextArtifact (save_text_as_txt (join_pages pages a b)) =
          if join_pages pages a b = "" then "(No text extracted.)" else join_pages pages a b := by
  refine ⟨fun t ht => ?_, rfl, fun pages a b => ?_⟩
  · rw [save_text_as_txt, if_neg ht]
  · by_cases h : join_pages pages a b = "" <;>
      simp [save_text_as_txt, readTextArtifact, h]

theorem txt_writer_verbatim_or_placeholder_witness :
    "Hello" ≠ "" ∧ save_text_as_txt "Hello" = "Hello" :=
  ⟨by decide, txt_writer_verbatim_or_placeholder.1 "Hello" (by decide)⟩

/- ===== C9: determinism of the preprocessor ===== -/

/-- C9: the image preprocessor is a deterministic pure function — it reads
nothing but its argument, so two runs on byte-identical input images
produce byte-identical outputs. -/
theorem preprocess_deterministic (i1 i2 : RGBImage) (h : i1 = i2) :
    _preprocess_for_ocr i1 = _preprocess_for_ocr i2 := by
  rw [h]

theorem preprocess_deterministic_witness :
    _preprocess_for_ocr ⟨1, 1, [(0, 0, 0)]⟩ = _preprocess_for_ocr ⟨1, 1, [(0, 0, 0)]⟩ :=
  preprocess_deterministic ⟨1, 1, [(0, 0, 0)]⟩ ⟨1, 1, [(0, 0, 0)]⟩ rfl

/- ===== C10: degenerate join and zero-page document ===== -/

/-- C10: `join_pages` returns the empty string whenever
`start_idx ≥ end_idx` (the slice is empty), and a zero-page document
processed with chunking disabled still produces exactly one output
artifact, whose plain-text content is the placeholder string. -/
theorem join_degenerate_and_zero_page_artifact :
    (∀ (pages : List String) (s e : Nat), e ≤ s → join_pages pages s e = "")
    ∧ ∀ (k : Nat) (name : String),
        workerArtifacts Fmt.txt false k name [] =
          [Artifact.txtFile (splitextBase name ++ ".txt") "(No text extracted.)"] := by
  constructor
  · intro pages s e he
    unfold join_pages
    rw [Nat.sub_eq_zero_of_le he]
    rfl
  · intro k name
    rfl

theorem join_degenerate_and_zero_page_artifact_witness :
    1 ≤ 3 ∧ join_pages ["a"] 3 1 = "" :=
  ⟨by decide, join_degenerate_and_zero_page_artifact.1 ["a"] 3 1 (by decide)⟩

/- ===== Chunk-loop lemmas ===== -/

theorem chunkLoopF_start_le (fuel total k start : Nat)
    (h : chunkLoopF fuel total k start ≠ []) : start ≤ total := by
  match fuel with
  | 0 => exact absurd rfl h
  | f + 1 =>
    by_cases hs : start ≤ total
    · exact hs
    · exact absurd (by simp [chunkLoopF, hs]) h

theorem chunkLoopF_nil_iff (fuel total k start : Nat) (hf : total < start + fuel) :
    chunkLoopF fuel total k start = [] ↔ total < start := by
  match fuel with
  | 0 => simp [chunkLoopF]; omega
  | f + 1 =>
    by_cases hs : start ≤ total
    · simp [chunkLoopF, hs]
    · simp [chunkLoopF, hs]; omega

theorem chunkLoopF_mem (fuel total k start : Nat) (hk : 0 < k)
    (r : Nat × Nat) (hr : r ∈ chunkLoopF fuel total k start) :
    start ≤ r.1 ∧ r.1 ≤ r.2 ∧ r.2 ≤ total ∧ r.2 + 1 - r.1 ≤ k := by
  match fuel with
  | 0 => simp [chunkLoopF] at hr
  | f + 1 =>
    by_cases hs : start ≤ total
    · rw [show chunkLoopF (f + 1) total k start
          = (start, min (start + k - 1) total) :: chunkLoopF f total k (min (start + k - 1) total + 1)
          by simp [chunkLoopF, hs]] at hr
      rcases List.mem_cons.mp hr with h | h
      · subst h; refine ⟨le_refl _, ?_, ?_, ?_⟩ <;> dsimp only <;> omega
      · have := chunkLoopF_mem f total k (min (start + k - 1) total + 1) hk r h
        omega
    · simp [chunkLoopF, hs] at hr

theorem chunkLoopF_cover (fuel total k start : Nat) (hk : 0 < k)
    (hf : total < start + fuel) (p : Nat) :
    (∃ r ∈ chunkLoopF fuel total k start, r.1 ≤ p ∧ p ≤ r.2) ↔ (start ≤ p ∧ p ≤ total) := by
  match fuel with
  | 0 => simp [chunkLoopF]; omega
  | f + 1 =>
    by_cases hs : start ≤ total
    · rw [show chunkLoopF (f + 1) total k start
          = (start, min (start + k - 1) total) :: chunkLoopF f total k (min (start + k - 1) total + 1)
          by simp [chunkLoopF, hs]]
      rw [List.exists_mem_cons_iff]
      rw [chunkLoopF_cover f total k (min (start + k - 1) total + 1) hk (by omega) p]
      dsimp only
      omega
    · simp [chunkLoopF, hs]; omega

theorem chunkLoopF_pairwise (fuel total k start : Nat) (hk : 0 < k) :
    List.Pairwise (fun a b : Nat × Nat => a.2 < b.1) (chunkLoopF fuel total k start) := by
  match fuel with
  | 0 => simp [chunkLoopF]
  | f + 1 =>
    by_cases hs : start ≤ total
    · rw [show chunkLoopF (f + 1) total k start
          = (start, min (start + k - 1) total) :: chunkLoopF f total k (min (start + k - 1) total + 1)
          by simp [chunkLoopF, hs]]
      refine List.pairwise_cons.mpr ⟨?_, chunkLoopF_pairwise f total k _ hk⟩
      intro r hr
      have := chunkLoopF_mem f total k (min (start + k - 1) total + 1) hk r hr
      dsimp only
      omega
    · simp [chunkLoopF, hs]

theorem chunkLoopF_head (fuel total k start : Nat) (r : Nat × Nat)
    (hhd : (chunkLoopF fuel total k start).head? = some r) : r.1 = start := by
  match fuel with
  | 0 => simp [chunkLoopF] at hhd
  | f + 1 =>
    by_cases hs : start ≤ total
    · rw [show chunkLoopF (f + 1) total k start
          = (start, min (start + k - 1) total) :: chunkLoopF f total k (min (start + k - 1) total + 1)
          by simp [chunkLoopF, hs]] at hhd
      rw [List.head?_cons] at hhd
      cases hhd
      rfl
    · simp [chunkLoopF, hs] at hhd

theorem chunkLoopF_chain (fuel total k start : Nat) (hk : 0 < k) :
    List.Chain' (fun a b : Nat × Nat => b.1 = a.2 + 1) (chunkLoopF fuel total k start) := by
  match fuel with
  | 0 => simp [chunkLoopF]
  | f + 1 =>
    by_cases hs : start ≤ total
    · rw [show chunkLoopF (f + 1) total k start
          = (start, min (start + k - 1) total) :: chunkLoopF f total k (min (start + k - 1) total + 1)
          by simp [chunkLoopF, hs]]
      refine List.chain'_cons'.mpr ⟨?_, chunkLoopF_chain f total k _ hk⟩
      intro y hy
      rw [Option.mem_def] at hy
      have := chunkLoopF_head f total k (min (start + k - 1) total + 1) y hy
      dsimp only
      omega
    · simp [chunkLoopF, hs]

theorem chunkLoopF_getLast_fst (fuel total k start : Nat) (hk : 0 < k)
    (r : Nat × Nat) (hr : (chunkLoopF fuel total k start).getLast? = some r) :
    r.1 + k = start + (chunkLoopF fuel total k start).length * k := by
  match fuel with
  | 0 => simp [chunkLoopF] at hr
  | f + 1 =>
    by_cases hs : start ≤ total
    · have heq : chunkLoopF (f + 1) total k start
          = (start, min (start + k - 1) total) :: chunkLoopF f total k (min (start + k - 1) total + 1) := by
        simp [chunkLoopF, hs]
      rw [heq] at hr ⊢
      cases htl : chunkLoopF f total k (min (start + k - 1) total + 1) with
      | nil =>
        rw [htl] at hr
        simp only [List.getLast?_singleton, Option.some.injEq] at hr
        subst hr
        simp [htl]
      | cons b l =>
        have hne : chunkLoopF f total k (min (start + k - 1) total + 1) ≠ [] := by
          rw [htl]; simp
        have hle := chunkLoopF_start_le f total k _ hne
        rw [htl, List.getLast?_cons_cons, ← htl] at hr
        have ih := chunkLoopF_getLast_fst f total k (min (start + k - 1) total + 1) hk r hr
        rw [htl] at ih
        rw [List.length_cons, Nat.succ_mul]
        omega
    · simp [chunkLoopF, hs] at hr

theorem chunkLoopF_dropLast (fuel total k start : Nat) (hk : 0 < k)
    (r : Nat × Nat) (hr : r ∈ (chunkLoopF fuel total k start).dropLast) :
    r.2 + 1 - r.1 = k := by
  match fuel with
  | 0 => simp [chunkLoopF] at hr
  | f + 1 =>
    by_cases hs : start ≤ total
    · rw [show chunkLoopF (f + 1) total k start
          = (start, min (start + k - 1) total) :: chunkLoopF f total k (min (start + k - 1) total + 1)
          by simp [chunkLoopF, hs]] at hr
      cases htl : chunkLoopF f total k (min (start + k - 1) total + 1) with
      | nil => rw [htl] at hr; simp at hr
      | cons b l =>
        rw [htl, List.dropLast_cons₂] at hr
        rcases List.mem_cons.mp hr with h | h
        · have hne : chunkLoopF f total k (min (start + k - 1) total + 1) ≠ [] := by
            rw [htl]; simp
          have hle := chunkLoopF_start_le f total k _ hne
          subst h
          dsimp only
          omega
        · rw [← htl] at h
          exact chunkLoopF_dropLast f total k (min (start + k - 1) total + 1) hk r h
    · simp [chunkLoopF, hs] at hr

theorem chunkLoopF_getLast (fuel total k start : Nat) (hk : 0 < k)
    (hf : total < start + fuel) (r : Nat × Nat)
    (hr : (chunkLoopF fuel total k start).getLast? = some r) : r.2 = total := by
  match fuel with
  | 0 => simp [chunkLoopF] at hr
  | f + 1 =>
    by_cases hs : start ≤ total
    · rw [show chunkLoopF (f + 1) total k start
          = (start, min (start + k - 1) total) :: chunkLoopF f total k (min (start + k - 1) total + 1)
          by simp [chunkLoopF, hs]] at hr
      cases htl : chunkLoopF f total k (min (start + k - 1) total + 1) with
      | nil =>
        rw [htl] at hr
        have hstop : total < min (start + k - 1) total + 1 :=
          (chunkLoopF_nil_iff f total k (min (start + k - 1) total + 1) (by omega)).mp htl
        simp only [List.getLast?_singleton, Option.some.injEq] at hr
        subst hr
        dsimp only
        omega
      | cons b l =>
        rw [htl, List.getLast?_cons_cons, ← htl] at hr
        exact chunkLoopF_getLast f total k (min (start + k - 1) total + 1) hk (by omega) r hr
    · simp [chunkLoopF, hs] at hr

/- ===== C1: correctness of the chunk partition ===== -/

/-- C1: for every `pageCount ≥ 0` and every `chunkSize > 0` (written
`km1 + 1`) with chunking enabled, the ranges the chunking loop iterates
cover exactly `[1, pageCount]`, are ascending and non-overlapping,
contiguous, each of length `chunkSize` except possibly the last, which ends
at `pageCount` and holds the remainder; `pageCount = 0` gives no ranges;
and with chunking disabled or `chunkSize ≤ 0` the single full range
`[1, pageCount]` is used instead. -/
theorem chunk_partition_correct (total km1 : Nat) :
    (∀ p : Nat, (∃ r ∈ partitionRanges true total (km1 + 1), r.1 ≤ p ∧ p ≤ r.2)
        ↔ (1 ≤ p ∧ p ≤ total))
    ∧ List.Pairwise (fun a b : Nat × Nat => a.2 < b.1) (partitionRanges true total (km1 + 1))
    ∧ List.Chain' (fun a b : Nat × Nat => b.1 = a.2 + 1) (partitionRanges true total (km1 + 1))
    ∧ (∀ r ∈ partitionRanges true total (km1 + 1),
        r.1 ≤ r.2 ∧ r.2 ≤ total ∧ r.2 + 1 - r.1 ≤ km1 + 1)
    ∧ (∀ r ∈ (partitionRanges true total (km1 + 1)).dropLast, r.2 + 1 - r.1 = km1 + 1)
    ∧ (∀ r : Nat × Nat, (partitionRanges true total (km1 + 1)).getLast? = some r →
        r.2 = total
        ∧ r.2 + 1 - r.1 = total - ((partitionRanges true total (km1 + 1)).length - 1) * (km1 + 1))
    ∧ (total = 0 → partitionRanges true total (km1 + 1) = [])
    ∧ (∀ (t k2 : Nat) (dc : Bool),
        partitionRanges false t k2 = [(1, t)] ∧ partitionRanges dc t 0 = [(1, t)]) := by
  have hk : 0 < km1 + 1 := Nat.succ_pos km1
  have hpr : partitionRanges true total (km1 + 1) = chunkLoopF (total + 1) total (km1 + 1) 1 := by
    rw [partitionRanges, if_pos (show (true = true) ∧ 0 < km1 + 1 from ⟨rfl, hk⟩)]
    rfl
  refine ⟨?_, ?_, ?_, ?_, ?_, ?_, ?_, ?_⟩
  · intro p
    rw [hpr]
    exact chunkLoopF_cover (total + 1) total (km1 + 1) 1 hk (by omega) p
  · rw [hpr]
    exact chunkLoopF_pairwise (total + 1) total (km1 + 1) 1 hk
  · rw [hpr]
    exact chunkLoopF_chain (total + 1) total (km1 + 1) 1 hk
  · intro r hr
    rw [hpr] at hr
    have := chunkLoopF_mem (total + 1) total (km1 + 1) 1 hk r hr
    omega
  · intro r hr
    rw [hpr] at hr
    exact chunkLoopF_dropLast (total + 1) total (km1 + 1) 1 hk r hr
  · intro r hr
    rw [hpr] at hr ⊢
    have h2 := chunkLoopF_getLast (total + 1) total (km1 + 1) 1 hk (by omega) r hr
    have h1 := chunkLoopF_getLast_fst (total + 1) total (km1 + 1) 1 hk r hr
    have hlen : 0 < (chunkLoopF (total + 1) total (km1 + 1) 1).length := by
      cases hnil : chunkLoopF (total + 1) total (km1 + 1) 1 with
      | nil => rw [hnil] at hr; simp at hr
      | cons a l => simp
    obtain ⟨m, hm⟩ : ∃ m, (chunkLoopF (total + 1) total (km1 + 1) 1).length = m + 1 :=
      ⟨(chunkLoopF (total + 1) total (km1 + 1) 1).length - 1, by omega⟩
    rw [hm] at h1 ⊢
    rw [Nat.succ_mul] at h1
    refine ⟨h2, ?_⟩
    simp only [Nat.add_sub_cancel]
    omega
  · intro h
    subst h
    rw [hpr]
    rfl
  · intro t k2 dc
    refine ⟨rfl, ?_⟩
    cases dc <;> rfl

/- ===== C4: artifact naming ===== -/

/-- C4 counterexample: the claim says an unchunked run with pdf format
produces an artifact named `<baseName>.pdf`; the code names it
`<baseName>_text.pdf` (src/app.py:283). -/
theorem unchunked_pdf_artifact_name_counterexample :
    (workerArtifacts Fmt.pdf false 10 "doc.pdf" ["[PAGE 1]\nx"]).map Artifact.path
      = ["doc_text.pdf"]
    ∧ ("doc_text.pdf" : String) ≠ "doc.pdf" :=
  ⟨by decide, by decide⟩

/-- C4 (amended): chunked artifacts are named
`<base>_p<start>-<end>.<ext>` with 3-digit zero padding for both formats;
an unchunked txt run produces `<base>.txt` but an unchunked pdf run
produces `<base>_text.pdf`; a 25-page document with chunk size 10 yields
exactly the three artifacts for ranges `[1,10]`, `[11,20]`, `[21,25]`. -/
theorem artifact_naming (fmt : Fmt) (k : Nat) (name : String) (pages : List String) :
    ((workerArtifacts fmt true (k + 1) name pages).map Artifact.path
      = (chunkRanges pages.length (k + 1)).map (fun r =>
          splitextBase name ++ "_p" ++ pad3 r.1 ++ "-" ++ pad3 r.2
            ++ (match fmt with | Fmt.txt => ".txt" | Fmt.pdf => ".pdf")))
    ∧ (workerArtifacts Fmt.txt false k name pages).map Artifact.path
        = [splitextBase name ++ ".txt"]
    ∧ (workerArtifacts Fmt.pdf false k name pages).map Artifact.path
        = [splitextBase name ++ "_text.pdf"]
    ∧ (workerArtifacts Fmt.txt true 10 "doc.pdf" (List.replicate 25 "t")).map Artifact.path
        = ["doc_p001-010.txt", "doc_p011-020.txt", "doc_p021-025.txt"]
    ∧ (workerArtifacts Fmt.pdf true 10 "doc.pdf" (List.replicate 25 "t")).map Artifact.path
        = ["doc_p001-010.pdf", "doc_p011-020.pdf", "doc_p021-025.pdf"] := by
  refine ⟨?_, rfl, rfl, by decide, by decide⟩
  simp only [workerArtifacts, true_and]
  rw [if_pos (Nat.succ_pos k)]
  rw [List.map_map]
  exact List.map_congr_left (fun r _ => by cases fmt <;> rfl)

/- ===== Extraction lemmas ===== -/

theorem extractLoop_ok (oracle : Nat → Except PyExc String) (txts : Nat → String)
    (n : Nat) : ∀ start : Nat, (∀ i, i < n → oracle (start + i) = .ok (txts (start + i))) →
    extractLoop oracle start n
      = .ok ((List.range n).map (fun i => pageEntry (start + i + 1) (txts (start + i)))) := by
  induction n with
  | zero => intro start _; rfl
  | succ m ih =>
    intro start h
    have h0 : oracle start = .ok (txts start) := by
      have := h 0 (Nat.succ_pos m)
      simpa using this
    have htail : ∀ i, i < m → oracle (start + 1 + i) = .ok (txts (start + 1 + i)) := by
      intro i hi
      have := h (i + 1) (by omega)
      have harith : start + (i + 1) = start + 1 + i := by omega
      rw [harith] at this
      exact this
    simp only [extractLoop, h0]
    rw [ih (start + 1) htail]
    rw [List.range_succ_eq_map, List.map_cons, List.map_map]
    refine congrArg Except.ok (congrArg₂ List.cons ?_ ?_)
    · simp
    · refine List.map_congr_left (fun i _ => ?_)
      have h1 : start + 1 + i = start + Nat.succ i := by omega
      simp only [Function.comp_apply, h1]

theorem extractLoop_err (oracle : Nat → Except PyExc String) (txts : Nat → String) (e : PyExc)
    (n : Nat) : ∀ start p : Nat, p < n → oracle (start + p) = .error e →
    (∀ i, i < p → oracle (start + i) = .ok (txts (start + i))) →
    extractLoop oracle start n = .error e := by
  induction n with
  | zero => intro start p hp _ _; omega
  | succ m ih =>
    intro start p hp herr hok
    match p with
    | 0 =>
      have h0 : oracle start = .error e := by simpa using herr
      simp only [extractLoop, h0]
    | q + 1 =>
      have h0 : oracle start = .ok (txts start) := by
        have := hok 0 (Nat.succ_pos q)
        simpa using this
      have herr' : oracle (start + 1 + q) = .error e := by
        have harith : start + (q + 1) = start + 1 + q := by omega
        rw [harith] at herr
        exact herr
      have hok' : ∀ i, i < q → oracle (start + 1 + i) = .ok (txts (start + 1 + i)) := by
        intro i hi
        have := hok (i + 1) (by omega)
        have harith : start + (i + 1) = start + 1 + i := by omega
        rw [harith] at this
        exact this
      simp only [extractLoop, h0]
      rw [ih (start + 1) q (by omega) herr' hok']

/- ===== C6: page-text sequence invariant ===== -/

/-- C6: for a successfully extracted document (every page's oracle call
returns text), the returned sequence is exactly one entry per page in
ascending page order — the n-th entry is the literal marker `[PAGE n]`, a
newline, then the stripped (possibly empty) OCR text of page n — and its
length equals the page count. -/
theorem extract_pages_marker_invariant (pageCount : Nat)
    (oracle : Nat → Except PyExc String) (txts : Nat → String)
    (h : ∀ i, i < pageCount → oracle i = .ok (txts i)) :
    extract_text_pages_force_ocr pageCount oracle
      = .ok ((List.range pageCount).map (fun i => pageEntry (i + 1) (txts i)))
    ∧ ((List.range pageCount).map (fun i => pageEntry (i + 1) (txts i))).length = pageCount := by
  constructor
  · have h' : ∀ i, i < pageCount → oracle (0 + i) = .ok (txts (0 + i)) := by
      intro i hi
      simpa using h i hi
    have := extractLoop_ok oracle txts pageCount 0 h'
    simpa using this
  · simp

theorem extract_pages_marker_invariant_witness :
    extract_text_pages_force_ocr 2 c6oracle = .ok ["[PAGE 1]\nHello", "[PAGE 2]\n"]
    ∧ (["[PAGE 1]\nHello", "[PAGE 2]\n"] : List String).length = 2 := by
  have h := extract_pages_marker_invariant 2 c6oracle c6texts (fun i _ => rfl)
  exact ⟨h.1, by decide⟩

/- ===== C2: page failure aborts the document, batch continues ===== -/

/-- C2 counterexample: on a 10-page document whose OCR fails on page 7,
the exception raised to the batch loop is the engine's own error, which is
not a `DocumentExtractionError` and carries no page index (the source
defines no such wrapper class). -/
theorem page_failure_error_unwrapped_counterexample :
    extract_text_pages_force_ocr 10 c2oracle = .error (PyExc.ocrEngineError "engine crashed")
    ∧ PyExc.pageOf (PyExc.ocrEngineError "engine crashed") = none :=
  ⟨rfl, rfl⟩

/-- C2 (amended): if rendering or OCR fails on page `p + 1` (0-based
oracle index `p`) of a document, extraction of the whole document aborts
with no partial output and the *original* render/OCR exception — not a
`DocumentExtractionError` wrapper — propagates to the batch loop, which
writes no output artifact for that document and continues with the next
input file. -/
theorem page_failure_aborts_document (fmt : Fmt) (dc : Bool) (k pageCount p : Nat)
    (name : String) (oracle : Nat → Except PyExc String) (txts : Nat → String) (e : PyExc)
    (files : List InputFile) (hp : p < pageCount) (herr : oracle p = .error e)
    (hok : ∀ i, i < p → oracle i = .ok (txts i)) :
    extract_text_pages_force_ocr pageCount oracle = .error e
    ∧ processFile fmt dc k ⟨name, .ok (pageCount, oracle)⟩ = []
    ∧ _run_worker fmt dc k (⟨name, .ok (pageCount, oracle)⟩ :: files)
        = _run_worker fmt dc k files := by
  have hext : extract_text_pages_force_ocr pageCount oracle = .error e := by
    have herr' : oracle (0 + p) = .error e := by simpa using herr
    have hok' : ∀ i, i < p → oracle (0 + i) = .ok (txts (0 + i)) := by
      intro i hi
      simpa using hok i hi
    exact extractLoop_err oracle txts e pageCount 0 p hp herr' hok'
  have hproc : processFile fmt dc k ⟨name, .ok (pageCount, oracle)⟩ = [] := by
    simp only [processFile]
    rw [hext]
  refine ⟨hext, hproc, ?_⟩
  show (⟨name, .ok (pageCount, oracle)⟩ :: files).flatMap (processFile fmt dc k)
    = files.flatMap (processFile fmt dc k)
  rw [List.flatMap_cons, hproc]
  rfl

theorem page_failure_aborts_document_witness :
    extract_text_pages_force_ocr 10 c2oracle = .error (PyExc.ocrEngineError "engine crashed")
    ∧ processFile Fmt.txt false 0 ⟨"doc.pdf", .ok (10, c2oracle)⟩ = []
    ∧ _run_worker Fmt.txt false 0 [⟨"doc.pdf", .ok (10, c2oracle)⟩]
        = _run_worker Fmt.txt false 0 [] :=
  page_failure_aborts_document Fmt.txt false 0 10 6 "doc.pdf" c2oracle (fun _ => "ok")
    (PyExc.ocrEngineError "engine crashed") [] (by omega) rfl
    (fun i hi => by
      show c2oracle i = .ok "ok"
      rw [c2oracle]
      rw [if_neg (by omega)])

/- ===== Image lemmas ===== -/

theorem getD_mem_or_default (l : List Nat) (i d : Nat) : l.getD i d ∈ l ∨ l.getD i d = d := by
  induction l generalizing i with
  | nil => right; simp
  | cons a l ih =>
    match i with
    | 0 => left; simp
    | j + 1 =>
      rw [List.getD_cons_succ]
      rcases ih j with h | h
      · left; exact List.mem_cons_of_mem _ h
      · right; exact h

theorem GrayImage.get_bilevel {img : GrayImage} (hb : Bilevel img) (x y : Nat) :
    img.get x y = 0 ∨ img.get x y = 255 := by
  rw [GrayImage.get]
  rcases getD_mem_or_default img.px (y * img.width + x) 0 with h | h
  · exact hb _ h
  · left; exact h

theorem mem_insertSorted (a : Nat) (l : List Nat) (x : Nat) (hx : x ∈ insertSorted a l) :
    x = a ∨ x ∈ l := by
  induction l with
  | nil => simp [insertSorted] at hx; left; exact hx
  | cons b l ih =>
    rw [insertSorted] at hx
    by_cases h : a ≤ b
    · rw [if_pos h] at hx
      exact List.mem_cons.mp hx
    · rw [if_neg h] at hx
      rcases List.mem_cons.mp hx with h1 | h1
      · right; rw [h1]; exact List.mem_cons_self b l
      · rcases ih h1 with h2 | h2
        · left; exact h2
        · right; exact List.mem_cons_of_mem _ h2

theorem mem_sortNat (l : List Nat) (x : Nat) (hx : x ∈ sortNat l) : x ∈ l := by
  induction l with
  | nil => simpa [sortNat] using hx
  | cons a l ih =>
    have hx' : x ∈ insertSorted a (sortNat l) := hx
    rcases mem_insertSorted a (sortNat l) x hx' with h | h
    · rw [h]; exact List.mem_cons_self a l
    · exact List.mem_cons_of_mem _ (ih h)

theorem neighborhood_bilevel {img : GrayImage} (hb : Bilevel img) (x y : Nat) :
    ∀ v ∈ neighborhood img x y, v = 0 ∨ v = 255 := by
  intro v hv
  rw [neighborhood, List.mem_flatten] at hv
  obtain ⟨l, hl, hvl⟩ := hv
  rw [List.mem_map] at hl
  obtain ⟨yy, _, rfl⟩ := hl
  rw [List.mem_map] at hvl
  obtain ⟨xx, _, rfl⟩ := hvl
  exact GrayImage.get_bilevel hb xx yy

theorem pointThreshold_bilevel (img : GrayImage) : Bilevel (pointThreshold img) := by
  intro v hv
  simp only [pointThreshold] at hv
  rw [List.mem_map] at hv
  obtain ⟨w, _, rfl⟩ := hv
  by_cases h : 180 < w
  · right; rw [if_pos h]
  · left; rw [if_neg h]

theorem medianFilter3_bilevel {img : GrayImage} (hb : Bilevel img) :
    Bilevel (medianFilter3 img) := by
  intro v hv
  simp only [medianFilter3] at hv
  rw [List.mem_map] at hv
  obtain ⟨i, _, rfl⟩ := hv
  rcases getD_mem_or_default (sortNat (neighborhood img (i % img.width) (i / img.width))) 4 0
    with h | h
  · exact neighborhood_bilevel hb _ _ _ (mem_sortNat _ _ h)
  · left; exact h

theorem sharpenAt_bilevel {img : GrayImage} (hb : Bilevel img) (x y : Nat) :
    sharpenAt img x y = 0 ∨ sharpenAt img x y = 255 := by
  rw [sharpenAt]
  by_cases hborder : x = 0 ∨ y = 0 ∨ img.width ≤ x + 1 ∨ img.height ≤ y + 1
  · rw [if_pos hborder]
    exact GrayImage.get_bilevel hb x y
  · rw [if_neg hborder]
    have hc := GrayImage.get_bilevel hb x y
    have h1 := GrayImage.get_bilevel hb (x - 1) (y - 1)
    have h2 := GrayImage.get_bilevel hb x (y - 1)
    have h3 := GrayImage.get_bilevel hb (x + 1) (y - 1)
    have h4 := GrayImage.get_bilevel hb (x - 1) y
    have h5 := GrayImage.get_bilevel hb (x + 1) y
    have h6 := GrayImage.get_bilevel hb (x - 1) (y + 1)
    have h7 := GrayImage.get_bilevel hb x (y + 1)
    have h8 := GrayImage.get_bilevel hb (x + 1) (y + 1)
    simp only []
    split_ifs with hv1 hv2
    · left; rfl
    · right; rfl
    · exfalso
      rcases hc with hc | hc <;> omega

theorem sharpenFilter_bilevel {img : GrayImage} (hb : Bilevel img) :
    Bilevel (sharpenFilter img) := by
  intro v hv
  simp only [sharpenFilter] at hv
  rw [List.mem_map] at hv
  obtain ⟨i, _, rfl⟩ := hv
  exact sharpenAt_bilevel hb _ _

theorem autocontrast_width (img : GrayImage) : (autocontrast img).width = img.width := by
  simp only [autocontrast]
  split <;> rfl

theorem autocontrast_height (img : GrayImage) : (autocontrast img).height = img.height := by
  simp only [autocontrast]
  split <;> rfl

/- ===== C7: the preprocessing pipeline ===== -/

/-- C7: the preprocessor applies, in this order, the conditional 1.5×
upscale (exactly when the smaller dimension is below 1400, multiplying both
dimensions by 1.5 with truncation), grayscale conversion, autocontrast, the
global `> 180` binarization, the 3-window median filter and the sharpening
filter; and the returned image is bilevel — every pixel is full black (0)
or full white (255). -/
theorem preprocess_pipeline_correct (img : RGBImage) :
    (_preprocess_for_ocr img
      = sharpenFilter (medianFilter3 (pointThreshold (autocontrast (grayscale
          (if min img.width img.height < 1400
           then resizeNearest img (3 * img.width / 2) (3 * img.height / 2)
           else img))))))
    ∧ ((_preprocess_for_ocr img).width
        = if min img.width img.height < 1400 then 3 * img.width / 2 else img.width)
    ∧ ((_preprocess_for_ocr img).height
        = if min img.width img.height < 1400 then 3 * img.height / 2 else img.height)
    ∧ Bilevel (_preprocess_for_ocr img) := by
  refine ⟨rfl, ?_, ?_, ?_⟩
  · show (sharpenFilter (medianFilter3 (pointThreshold (autocontrast (grayscale _))))).width = _
    rw [show ∀ i : GrayImage, (sharpenFilter i).width = i.width from fun _ => rfl]
    rw [show ∀ i : GrayImage, (medianFilter3 i).width = i.width from fun _ => rfl]
    rw [show ∀ i : GrayImage, (pointThreshold i).width = i.width from fun _ => rfl]
    rw [autocontrast_width]
    by_cases h : min img.width img.height < 1400 <;> simp [grayscale, resizeNearest, h]
  · show (sharpenFilter (medianFilter3 (pointThreshold (autocontrast (grayscale _))))).height = _
    rw [show ∀ i : GrayImage, (sharpenFilter i).height = i.height from fun _ => rfl]
    rw [show ∀ i : GrayImage, (medianFilter3 i).height = i.height from fun _ => rfl]
    rw [show ∀ i : GrayImage, (pointThreshold i).height = i.height from fun _ => rfl]
    rw [autocontrast_height]
    by_cases h : min img.width img.height < 1400 <;> simp [grayscale, resizeNearest, h]
  · show Bilevel (sharpenFilter (medianFilter3 (pointThreshold (autocontrast (grayscale _)))))
    exact sharpenFilter_bilevel (medianFilter3_bilevel (pointThreshold_bilevel _))
